import Mathlib

/-!
Shallow embedding of `odoo_partner_scraper.py`: the text-extraction and
normalization pipeline (text normalizer, industry catalog, list-row parser,
profile extractor, record assembler).  Strings are modelled as `List Char`;
the regular expressions of the source are modelled as explicit scanners with
Python `re` semantics (leftmost match, greedy repetition with the
backtracking behaviour worked out for each concrete pattern).  All scanners
are applied, as in the source, to whitespace-normalized text (every
whitespace run collapsed to a single space), and their semantics is faithful
on such inputs.  Word characters follow Python's `\w` restricted to ASCII.
-/

namespace Scraper

/-- Python `\w` (ASCII): letters, digits, underscore. -/
def isWordChar (c : Char) : Bool := c.isAlphanum || c = '_'

/-- Python `\s` / `str.split` whitespace. -/
def isWsChar (c : Char) : Bool := c.isWhitespace

/-- `text.split()`: split on whitespace runs, dropping empty pieces. -/
def splitWsGo : List Char → List Char → List (List Char)
  | [], acc => if acc.isEmpty then [] else [acc.reverse]
  | c :: rest, acc =>
    if isWsChar c then
      if acc.isEmpty then splitWsGo rest [] else acc.reverse :: splitWsGo rest []
    else splitWsGo rest (c :: acc)

def splitWs (s : List Char) : List (List Char) := splitWsGo s []

/-- `" ".join(text.split())`: collapse whitespace runs to single spaces and trim. -/
def normalize (s : List Char) : List Char := List.intercalate [' '] (splitWs s)

/-- Is position `i` preceded by a non-word character (or the string start)?
This is the `\b` test on the left of a pattern that begins with a word char. -/
def prevNonWord (s : List Char) (i : Nat) : Bool :=
  match i with
  | 0 => true
  | j + 1 =>
    match s.get? j with
    | some c => !isWordChar c
    | none => true

/-- `\b` after a token that ends in a word character: the next char (the head
of the remaining suffix) must be a non-word char, or the string must end. -/
def nonWordHead : List Char → Bool
  | [] => true
  | c :: _ => !isWordChar c

/-- General `\b` between a last-matched char `p` and the remaining suffix. -/
def wordBoundary (p : Char) : List Char → Bool
  | [] => isWordChar p
  | c :: _ => isWordChar p != isWordChar c

/-- Match a literal, returning the remaining suffix. -/
def lit : List Char → List Char → Option (List Char)
  | [], s => some s
  | _ :: _, [] => none
  | c :: cs, d :: ds => if d = c then lit cs ds else none

/-- Case-insensitive literal match (for the `re.IGNORECASE` patterns). -/
def litCI : List Char → List Char → Option (List Char)
  | [], s => some s
  | _ :: _, [] => none
  | c :: cs, d :: ds => if d.toLower = c.toLower then litCI cs ds else none

/-- `int()` of a digit string. -/
def natOfDigits (ds : List Char) : Nat :=
  ds.foldl (fun a c => a * 10 + (c.toNat - '0'.toNat)) 0

/-- Python `str.strip(chars)`: drop chars of `cs` from both ends. -/
def stripSet (cs : List Char) (s : List Char) : List Char :=
  ((s.dropWhile (cs.contains ·)).reverse.dropWhile (cs.contains ·)).reverse

/-- Python `str.strip()`: drop whitespace from both ends. -/
def stripWs (s : List Char) : List Char :=
  ((s.dropWhile isWsChar).reverse.dropWhile isWsChar).reverse

/-! ## List-page regex patterns -/

/-- `TIER_RE = \b(Gold|Silver|Ready)\b`, attempted at position `i`. -/
def tierAt (s : List Char) (i : Nat) : Option (Nat × List Char) :=
  if prevNonWord s i then
    ["Gold".toList, "Silver".toList, "Ready".toList].findSome? (fun w =>
      match lit w (s.drop i) with
      | some rest => if nonWordHead rest then some (i, w) else none
      | none => none)
  else none

/-- `TIER_RE.search`: leftmost match, returning (start, tier word). -/
def tierSearch (s : List Char) : Option (Nat × List Char) :=
  (List.range (s.length + 1)).findSome? (tierAt s)

/-- `\b(\d+)\s+<word>s?\b` attempted at position `i`; shared by `REFS_RE`
(`word = "Reference"`) and `EXPERTS_RE` (`word = "Certified Expert"`).
The optional `s` is greedy; if taking it breaks the final `\b`, the
`s`-less alternative faces two word chars and fails as well. -/
def countWordAt (word : List Char) (s : List Char) (i : Nat) : Option (List Char) :=
  if prevNonWord s i then
    let p1 := (s.drop i).span (·.isDigit)
    if p1.1.isEmpty then none
    else
      let p2 := p1.2.span isWsChar
      if p2.1.isEmpty then none
      else
        match lit word p2.2 with
        | some r3 =>
          match r3 with
          | 's' :: r4 => if nonWordHead r4 then some p1.1 else none
          | _ => if nonWordHead r3 then some p1.1 else none
        | none => none
  else none

/-- `REFS_RE.search`: first `\b(\d+)\s+References?\b`, returning the digits. -/
def refsSearch (s : List Char) : Option (List Char) :=
  (List.range (s.length + 1)).findSome? (countWordAt "Reference".toList s)

/-- `EXPERTS_RE.search`: first `\b(\d+)\s+Certified Experts?\b`. -/
def expertsSearch (s : List Char) : Option (List Char) :=
  (List.range (s.length + 1)).findSome? (countWordAt "Certified Expert".toList s)

/-- The tail of `LOC_RE` after the lazy group: `\s+Average Project:` (the
whitespace run, then the literal; the literal starts with a non-space char,
so the greedy `\s+` cannot give back characters). -/
def locTailMatch (u : List Char) : Bool :=
  let p := u.span isWsChar
  !p.1.isEmpty && (lit "Average Project:".toList p.2).isSome

/-- `LOC_RE = %\s+(.+?)\s+Average Project:` (DOTALL) attempted at position
`i`: a `%`, a whitespace run, then the shortest non-empty capture followed
by `\s+Average Project:`. -/
def locAt (s : List Char) (i : Nat) : Option (List Char) :=
  match s.get? i with
  | some '%' =>
    let p := (s.drop (i + 1)).span isWsChar
    if p.1.isEmpty then none
    else
      (List.range (p.2.length + 1)).findSome? (fun k =>
        if k = 0 then none
        else if locTailMatch (p.2.drop k) then some (p.2.take k) else none)
  | _ => none

/-- `LOC_RE.search`: leftmost match, returning the captured group. -/
def locSearch (s : List Char) : Option (List Char) :=
  (List.range (s.length + 1)).findSome? (locAt s)

/-! ## `parse_partner_text` -/

structure PartnerRow where
  partnerName : String
  tier : String
  location : String
  references : String
  certifiedExperts : String
deriving Repr, DecidableEq

/-- `m_loc.group(1).strip(" ,") if m_loc else "N/A"`. -/
def rowLocation (n : List Char) : List Char :=
  match locSearch n with
  | some cap => stripSet [' ', ','] cap
  | none => "N/A".toList

/-- `m_refs.group(1) if m_refs else "0"`. -/
def rowRefs (n : List Char) : List Char :=
  match refsSearch n with
  | some ds => ds
  | none => ['0']

/-- `m_exp.group(1) if m_exp else "0"`. -/
def rowExperts (n : List Char) : List Char :=
  match expertsSearch n with
  | some ds => ds
  | none => ['0']

/-- `parse_partner_text`: parse one candidate anchor's visible text into
structured fields, or `none` if it is not a valid partner row. -/
def parsePartnerText (t : List Char) : Option PartnerRow :=
  let n := normalize t
  match tierSearch n with
  | none => none
  | some m =>
    let name := stripWs (n.take m.1)
    if name.isEmpty || name.map Char.toLower = "find best match".toList then none
    else if rowLocation n = "N/A".toList && rowRefs n = ['0'] && rowExperts n = ['0'] then
      none
    else
      some ⟨⟨name⟩, ⟨m.2⟩, ⟨rowLocation n⟩, ⟨rowRefs n⟩, ⟨rowExperts n⟩⟩

/-! ## Industry catalog and fixed RI columns -/

/-- `ALLOWED_INDUSTRIES`: the fixed closed set of 22 industry labels. -/
def ALLOWED_INDUSTRIES : List String :=
  ["Agriculture",
   "Construction & Renovation",
   "ECO liable to deduct TCS u/s 52",
   "ECO liable to pay GST u/s 9(5)",
   "Education",
   "Entertainment / Media",
   "Finance / Legal / Insurance",
   "Food / Hospitality / Tourism / Beverage",
   "Government",
   "HR / Administrative / Consulting",
   "Health / Social Welfare / Pharmaceutical",
   "Households",
   "IT / Communication / Marketing",
   "Manufacturing / Maintenance",
   "Mining & Quarrying",
   "NGO",
   "Other Services",
   "Real Estate",
   "Science & Technology",
   "Transportation/Logistics",
   "Utilities / Energy / Water supply",
   "Wholesale / Retail"]

/-- Replace every maximal run of characters satisfying `p` by the single
character `r` (the shape of `re.sub(r"X+", r, s)` for a character class `X`).
The flag records whether we are inside a run. -/
def collapseRunsGo (p : Char → Bool) (r : Char) : Bool → List Char → List Char
  | _, [] => []
  | inRun, c :: cs =>
    if p c then
      if inRun then collapseRunsGo p r true cs
      else r :: collapseRunsGo p r true cs
    else c :: collapseRunsGo p r false cs

def collapseRuns (p : Char → Bool) (r : Char) (s : List Char) : List Char :=
  collapseRunsGo p r false s

/-- `make_safe_ri_column`: strip, collapse whitespace, turn non-alphanumeric
runs into `_`, collapse `_` runs, strip `_`, and prepend `RI_`. -/
def makeSafeRiCol (label : String) : String :=
  let l1 := stripWs label.toList
  let l2 := collapseRuns isWsChar ' ' l1
  let l3 := collapseRuns (fun c => !c.isAlphanum) '_' l2
  let l4 := stripSet ['_'] (collapseRuns (· = '_') '_' l3)
  ⟨'R' :: 'I' :: '_' :: l4⟩

/-- `ALLOWED_LABEL_TO_RI_COL.get(lab)`: the comprehension
`{lab: make_safe_ri_column(lab) for lab in ALLOWED_INDUSTRIES}` looked up. -/
def allowedLabelToRiCol (lab : String) : Option String :=
  if lab ∈ ALLOWED_INDUSTRIES then some (makeSafeRiCol lab) else none

/-- `ALLOWED_RI_COLS`: the 22 derived column identifiers, in catalog order. -/
def ALLOWED_RI_COLS : List String := ALLOWED_INDUSTRIES.map makeSafeRiCol

/-- `init_ri_zero_dict()`: every RI column mapped to 0, in catalog order. -/
def initRiZeroDict : List (String × Nat) := ALLOWED_RI_COLS.map (fun c => (c, 0))

/-! Association lists standing for Python dicts (insertion-ordered;
assignment updates in place when the key exists, else appends). -/

def dictGet : List (String × Nat) → String → Option Nat
  | [], _ => none
  | p :: rest, k => if p.1 = k then some p.2 else dictGet rest k

def dictSet : List (String × Nat) → String → Nat → List (String × Nat)
  | [], k, v => [(k, v)]
  | p :: rest, k, v => if p.1 = k then (k, v) :: rest else p :: dictSet rest k v

/-! ## Profile extractor -/

structure ProfileExtras where
  certifiedVersions : String
  referencesTotal : Option Nat
  customerRetention : Option Nat
  largestReferenceUsers : Option Nat
  averageReferenceUsers : Option Nat
  referenceIndustries : String
  riCounts : List (String × Nat)
deriving Repr, DecidableEq

/-- The dict literal `extras = {...}` updated with `init_ri_zero_dict()`. -/
def defaultExtras : ProfileExtras :=
  ⟨"", none, none, none, none, "", initRiZeroDict⟩

/-- Repeated non-overlapping scanning (`re.findall`): try the matcher at
every position left to right; on a match, resume at the match's end.  The
fuel argument is `s.length + 1`, enough since every step advances. -/
def findAllGo {α : Type} (m : List Char → Nat → Option (α × Nat)) (s : List Char) :
    Nat → Nat → List α
  | 0, _ => []
  | fuel + 1, i =>
    if i > s.length then []
    else
      match m s i with
      | some (a, e) => a :: findAllGo m s fuel (max e (i + 1))
      | none => findAllGo m s fuel (i + 1)

def findAll {α : Type} (m : List Char → Nat → Option (α × Nat)) (s : List Char) : List α :=
  findAllGo m s (s.length + 1) 0

/-- `\b(\d+)\s+Certified\s+v(\d+)\b` (IGNORECASE) at position `i`, returning
((count digits, version digits), end position). -/
def certAt (s : List Char) (i : Nat) : Option ((List Char × List Char) × Nat) :=
  if prevNonWord s i then
    let p1 := (s.drop i).span (·.isDigit)
    if p1.1.isEmpty then none
    else
      let p2 := p1.2.span isWsChar
      if p2.1.isEmpty then none
      else
        match litCI "certified".toList p2.2 with
        | some r1 =>
          let p3 := r1.span isWsChar
          if p3.1.isEmpty then none
          else
            match litCI "v".toList p3.2 with
            | some r2 =>
              let p4 := r2.span (·.isDigit)
              if p4.1.isEmpty then none
              else if nonWordHead p4.2 then some ((p1.1, p4.1), s.length - p4.2.length)
              else none
            | none => none
        | none => none
  else none

/-- Nat rendering (decimal), for the f-strings of the source. -/
def natToChars (n : Nat) : List Char := Nat.toDigits 10 n

/-- `agg[key] = agg.get(key, 0) + int(cnt)` on an insertion-ordered dict. -/
def aggAdd : List (List Char × Nat) → List Char → Nat → List (List Char × Nat)
  | [], k, v => [(k, v)]
  | p :: rest, k, v => if p.1 = k then (p.1, p.2 + v) :: rest else p :: aggAdd rest k v

/-- Stable insertion sort, descending by `key` (Python `sorted(...,
reverse=True)`: ties keep their original relative order). -/
def insertDescLe {α : Type} (key : α → Nat) (x : α) : List α → List α
  | [] => [x]
  | y :: ys => if key y ≤ key x then x :: y :: ys else y :: insertDescLe key x ys

def sortByDesc {α : Type} (key : α → Nat) : List α → List α
  | [] => []
  | x :: xs => insertDescLe key x (sortByDesc key xs)

/-- The `Certified Versions` cell: aggregate counts per version key `v<ver>`
(summing duplicates), sort keys by numeric version descending, and render
`"v<ver>:<count>"` joined by `"; "`.  When no pair matches, the folds give
`""`, which is exactly the untouched initial value of the source. -/
def certVersionsRender (norm : List Char) : String :=
  let pairs := findAll certAt norm
  let agg := pairs.foldl (fun acc pr => aggAdd acc ('v' :: pr.2) (natOfDigits pr.1)) []
  let sorted := sortByDesc (fun p => natOfDigits (p.1.drop 1)) agg
  ⟨List.intercalate "; ".toList (sorted.map (fun p => p.1 ++ ':' :: natToChars p.2))⟩

/-- `\bReferences\s*-\s*(\d+)\b` (IGNORECASE) at `i`, returning the digits
and the match's end position (`m_total.end()`). -/
def refsTotalAt (s : List Char) (i : Nat) : Option (List Char × Nat) :=
  if prevNonWord s i then
    match litCI "references".toList (s.drop i) with
    | some r1 =>
      let p1 := r1.span isWsChar
      match lit ['-'] p1.2 with
      | some r2 =>
        let p2 := r2.span isWsChar
        let p3 := p2.2.span (·.isDigit)
        if p3.1.isEmpty then none
        else if nonWordHead p3.2 then some (p3.1, s.length - p3.2.length)
        else none
      | none => none
    | none => none
  else none

def refsTotalSearch (s : List Char) : Option (List Char × Nat) :=
  (List.range (s.length + 1)).findSome? (refsTotalAt s)

/-- The anchor phrase `\bCustomer\s+Retention\b` (IGNORECASE) at `i`,
returning the end position. -/
def custRetPhraseAt (s : List Char) (i : Nat) : Option Nat :=
  if prevNonWord s i then
    match litCI "customer".toList (s.drop i) with
    | some r1 =>
      let p := r1.span isWsChar
      if p.1.isEmpty then none
      else
        match litCI "retention".toList p.2 with
        | some r2 => if nonWordHead r2 then some (s.length - r2.length) else none
        | none => none
    | none => none
  else none

/-- The tail `\b(\d{1,3})\s*%?\b` of the retention pattern at `i`.  With the
digit run maximal, the trailing `\s*%?\b` succeeds (through one of its
backtracking alternatives) exactly when the character after the run is not a
word character, so the tail reduces to `nonWordHead`. -/
def retNumAt (s : List Char) (i : Nat) : Option (List Char) :=
  if prevNonWord s i then
    let p := (s.drop i).span (·.isDigit)
    if p.1.isEmpty then none
    else if p.1.length ≤ 3 && nonWordHead p.2 then some p.1
    else none
  else none

/-- `\bCustomer\s+Retention\b.*?\b(\d{1,3})\s*%?\b` (IGNORECASE): the engine
takes the leftmost anchor-phrase start whose tail admits a number, and the
lazy `.*?` picks the first such number after the phrase. -/
def retentionSearch (s : List Char) : Option (List Char) :=
  (List.range (s.length + 1)).findSome? (fun i =>
    (custRetPhraseAt s i).bind (fun e =>
      (List.range (s.length + 1 - e)).findSome? (fun k => retNumAt s (e + k))))

/-- The anchor phrase `\bReferences\s+Sizes\b` (IGNORECASE) at `i`. -/
def refSizesPhraseAt (s : List Char) (i : Nat) : Option Nat :=
  if prevNonWord s i then
    match litCI "references".toList (s.drop i) with
    | some r1 =>
      let p := r1.span isWsChar
      if p.1.isEmpty then none
      else
        match litCI "sizes".toList p.2 with
        | some r2 => if nonWordHead r2 then some (s.length - r2.length) else none
        | none => none
    | none => none
  else none

/-- `\b<word>\s*~?\s*(\d+)\s*\+?\s*users?\b` (IGNORECASE) at `i`, with
`word` = `Largest:` or `Average:`.  Every greedy choice here is forced: the
optional `~` and `+` and each `\s*` are followed by atoms that cannot match
the characters they would have to give back, so no backtracking arises. -/
def sizeNumAt (word : List Char) (s : List Char) (i : Nat) : Option (List Char) :=
  if prevNonWord s i then
    match litCI word (s.drop i) with
    | some r1 =>
      let a := r1.dropWhile isWsChar
      let b := match a with | '~' :: t => t | _ => a
      let c := b.dropWhile isWsChar
      let p := c.span (·.isDigit)
      if p.1.isEmpty then none
      else
        let d := p.2.dropWhile isWsChar
        let e := match d with | '+' :: t => t | _ => d
        let f := e.dropWhile isWsChar
        match litCI "user".toList f with
        | some g =>
          match g with
          | 's' :: h => if nonWordHead h then some p.1 else none
          | _ => if nonWordHead g then some p.1 else none
        | none => none
    | none => none
  else none

/-- `\bReferences\s+Sizes\b.*?<sizes tail>`: as for retention. -/
def sizeSearch (word : List Char) (s : List Char) : Option (List Char) :=
  (List.range (s.length + 1)).findSome? (fun i =>
    (refSizesPhraseAt s i).bind (fun e =>
      (List.range (s.length + 1 - e)).findSome? (fun k => sizeNumAt word s (e + k))))

/-- Chain of case-insensitive words separated by `\s+`. -/
def chainCI : List (List Char) → List Char → Option (List Char)
  | [], r => some r
  | [w], r => litCI w r
  | w :: ws, r =>
    match litCI w r with
    | some r1 =>
      let p := r1.span isWsChar
      if p.1.isEmpty then none else chainCI ws p.2
    | none => none

/-- One stop-marker alternative (`\bW1\s+W2...\b`, IGNORECASE; `optS` adds
the optional trailing `s` of `Experts?`) attempted at position `i`. -/
def stopMarkerAt (ws : List (List Char)) (optS : Bool) (s : List Char) (i : Nat) : Bool :=
  prevNonWord s i &&
    match chainCI ws (s.drop i) with
    | some r =>
      if optS then
        match r with
        | 's' :: r2 => nonWordHead r2
        | _ => nonWordHead r
      else nonWordHead r
    | none => false

/-- The `stop_markers` alternation of `fetch_profile_extras`. -/
def stopMarkers : List (List (List Char) × Bool) :=
  [(["references".toList, "sizes".toList], false),
   (["customer".toList, "retention".toList], false),
   (["certified".toList, "expert".toList], true),
   (["average".toList, "project".toList], false),
   (["industries".toList], false),
   (["about".toList], false),
   (["gold".toList], false),
   (["silver".toList], false),
   (["ready".toList], false)]

/-- `stop_re.search(tail).start()`: position of the leftmost stop marker. -/
def stopSearch (s : List Char) : Option Nat :=
  (List.range (s.length + 1)).findSome? (fun i =>
    if stopMarkers.any (fun m => stopMarkerAt m.1 m.2 s i) then some i else none)

/-- `sorted(ALLOWED_INDUSTRIES, key=len, reverse=True)`: longest-first,
ties in catalog order (Python's sort is stable under `reverse=True`). -/
def sortedIndustries : List String := sortByDesc String.length ALLOWED_INDUSTRIES

/-- The `({label_alt})\b` part of the industry pattern: the first label (in
longest-first order) that matches literally (case-sensitively) and is
followed by a word boundary. -/
def industryLabelAt (r : List Char) : Option (String × List Char) :=
  sortedIndustries.findSome? (fun lab =>
    match lit lab.toList r with
    | some rest =>
      match lab.toList.getLast? with
      | some lc => if wordBoundary lc rest then some (lab, rest) else none
      | none => none
    | none => none)

/-- `\b(\d{1,6})\s+({label_alt})\b` at position `i`: a standalone digit run
of length 1–6 (a longer run cannot match at any offset), whitespace, then a
catalog label.  Returns ((count, label), end position). -/
def industryAt (s : List Char) (i : Nat) : Option ((Nat × String) × Nat) :=
  if prevNonWord s i then
    let p1 := (s.drop i).span (·.isDigit)
    if p1.1.isEmpty || p1.1.length > 6 then none
    else
      let p2 := p1.2.span isWsChar
      if p2.1.isEmpty then none
      else
        match industryLabelAt p2.2 with
        | some (lab, rest) => some ((natOfDigits p1.1, lab), s.length - rest.length)
        | none => none
  else none

/-- `patt.findall(block)` as (count, label) pairs. -/
def industryFindAll (block : List Char) : List (Nat × String) :=
  findAll industryAt block

/-- The bounded industry block: the tail after the `References - N` match,
stripped, truncated at the first stop marker, stripped again.  Empty when
the anchor is absent (in which case the source never scans for industries). -/
def industryBlock (norm : List Char) : List Char :=
  match refsTotalSearch norm with
  | none => []
  | some p =>
    let tail := stripWs (norm.drop p.2)
    match stopSearch tail with
    | some j => stripWs (tail.take j)
    | none => tail

def industryFound (norm : List Char) : List (Nat × String) :=
  industryFindAll (industryBlock norm)

/-- The `dedup` dict and `order` list of the source, joined in one
insertion-ordered association list: a recurring label keeps its first-seen
position and the maximum of the counts seen. -/
def dedupAdd : List (String × Nat) → Nat × String → List (String × Nat)
  | [], p => [(p.2, p.1)]
  | q :: rest, p => if q.1 = p.2 then (q.1, max q.2 p.1) :: rest else q :: dedupAdd rest p

def dedupFold (found : List (Nat × String)) : List (String × Nat) :=
  found.foldl dedupAdd []

/-- `" ".join(f"{lab} {dedup[lab]}" for lab in order)`. -/
def renderIndustries (d : List (String × Nat)) : List Char :=
  List.intercalate [' '] (d.map (fun p => p.1.toList ++ ' ' :: natToChars p.2))

/-- `for lab, cnt in dedup.items(): col = ALLOWED_LABEL_TO_RI_COL.get(lab);
if col: extras[col] = int(cnt)`. -/
def writeRiCounts (ri : List (String × Nat)) (d : List (String × Nat)) : List (String × Nat) :=
  d.foldl (fun acc p =>
    match allowedLabelToRiCol p.1 with
    | some col => dictSet acc col p.2
    | none => acc) ri

/-- The parsing part of `fetch_profile_extras`, on the normalized visible
text of a fetched profile page (lines 182–264 of the source).  When no
`References - N` anchor matches, `Reference Industries` stays `""` and the
RI columns stay at `init_ri_zero_dict()`; when the anchor matches but no
industry is found in the bounded block, the folds below reproduce those same
untouched values. -/
def extractExtras (norm : List Char) : ProfileExtras :=
  let cv := certVersionsRender norm
  let ret := (retentionSearch norm).map natOfDigits
  let lar := (sizeSearch "largest:".toList norm).map natOfDigits
  let avg := (sizeSearch "average:".toList norm).map natOfDigits
  match refsTotalSearch norm with
  | none => ⟨cv, none, ret, lar, avg, "", initRiZeroDict⟩
  | some p =>
    let dedup := dedupFold (industryFound norm)
    ⟨cv, some (natOfDigits p.1), ret, lar, avg,
      ⟨renderIndustries dedup⟩, writeRiCounts initRiZeroDict dedup⟩

/-- `fetch_profile_extras`: the network is a collaborator, so the fetch
outcome is a parameter — `none` stands for a transport error or a non-200
status, `some raw` for the visible text of the fetched page (which the
source collapses with `re.sub(r"\s+", " ", ...).strip()`, the same function
as `normalize`).  An empty `profile_url` short-circuits before any fetch. -/
def fetchProfileExtras (profileUrl : String) (fetched : Option (List Char)) : ProfileExtras :=
  if profileUrl = "" then defaultExtras
  else
    match fetched with
    | none => defaultExtras
    | some raw => extractExtras (normalize raw)

/-! ## Record assembler (`clean_and_export`) -/

/-- One row of the raw DataFrame handed to `clean_and_export`: the dict
built in `scrape_partners`.  `none` stands for a missing cell (NaN after
DataFrame alignment / `reindex`); `riCounts` holds whatever RI columns the
row carries, keyed by column identifier. -/
structure RawRow where
  partnerName : Option String
  tier : Option String
  location : Option String
  references : Option String
  certifiedExperts : Option String
  profileURL : Option String
  certifiedVersions : Option String
  referencesTotal : Option Nat
  customerRetention : Option Nat
  largestReferenceUsers : Option Nat
  averageReferenceUsers : Option Nat
  referenceIndustries : Option String
  riCounts : List (String × Nat)
deriving Repr, DecidableEq

/-- A row of the cleaned output table: name coerced to a trimmed string,
the two count columns coerced to integers (unparseable/missing → 0), the
optional numeric extras left numeric-or-absent, and exactly the 22 RI
columns in catalog order. -/
structure CleanRow where
  partnerName : String
  tier : Option String
  location : Option String
  references : Int
  certifiedExperts : Int
  profileURL : Option String
  certifiedVersions : Option String
  referencesTotal : Option Nat
  customerRetention : Option Nat
  largestReferenceUsers : Option Nat
  averageReferenceUsers : Option Nat
  referenceIndustries : Option String
  riCounts : List (String × Nat)
deriving Repr, DecidableEq

/-- `pd.to_numeric(errors="coerce")` on the cell values this pipeline
produces: a decimal integer string (optional sign) parses, anything else is
NaN (`none`). -/
def parseNumeric (s : String) : Option Int :=
  match s.toList with
  | [] => none
  | '-' :: ds =>
    if !ds.isEmpty && ds.all (·.isDigit) then some (-(natOfDigits ds : Int)) else none
  | ds => if ds.all (·.isDigit) then some (natOfDigits ds) else none

/-- The per-row coercions of `clean_and_export`: `reindex` to the expected
columns, `fillna("")`/`strip` on the name, `to_numeric(...).fillna(0)` on
the count columns, `to_numeric` on the optional extras (already numeric or
NaN here), and `to_numeric(...).fillna(0)` on the 22 RI columns. -/
def cleanRow (r : RawRow) : CleanRow :=
  { partnerName := ⟨stripWs (r.partnerName.getD "").toList⟩
    tier := r.tier
    location := r.location
    references := ((r.references.bind parseNumeric).getD 0)
    certifiedExperts := ((r.certifiedExperts.bind parseNumeric).getD 0)
    profileURL := r.profileURL
    certifiedVersions := r.certifiedVersions
    referencesTotal := r.referencesTotal
    customerRetention := r.customerRetention
    largestReferenceUsers := r.largestReferenceUsers
    averageReferenceUsers := r.averageReferenceUsers
    referenceIndustries := r.referenceIndustries
    riCounts := ALLOWED_RI_COLS.map (fun c => (c, (dictGet r.riCounts c).getD 0)) }

/-- The name filters: non-empty after strip, and not the placeholder
`Find Best Match` (full match, case-insensitive). -/
def nameOk (c : CleanRow) : Bool :=
  !c.partnerName.toList.isEmpty &&
    c.partnerName.toList.map Char.toLower != "find best match".toList

/-- `df[(df["References"] > 0) | (df["Certified Experts"] > 0)]`. -/
def countOk (c : CleanRow) : Bool :=
  c.references > 0 || c.certifiedExperts > 0

/-- The pipeline of `clean_and_export` up to (not including) the
de-duplication step. -/
def preDedup (rows : List RawRow) : List CleanRow :=
  ((rows.map cleanRow).filter nameOk).filter countOk

/-- The de-duplication key: `["Partner Name", "Tier", "Location"]`.  The two
un-coerced key columns compare as `Option String` (pandas treats two NaN
cells as duplicates of each other). -/
def rowKey (c : CleanRow) : String × Option String × Option String :=
  (c.partnerName, c.tier, c.location)

/-- `df.drop_duplicates(subset=...)`: keep the first row bearing each key. -/
def dedupFirstGo (seen : List (String × Option String × Option String)) :
    List CleanRow → List CleanRow
  | [] => []
  | r :: rest =>
    if rowKey r ∈ seen then dedupFirstGo seen rest
    else r :: dedupFirstGo (rowKey r :: seen) rest

/-- `clean_and_export` as a table-to-table function (the CSV/Excel writing
is outside the extraction core). -/
def cleanAndExport (rows : List RawRow) : List CleanRow :=
  dedupFirstGo [] (preDedup rows)

/-- First-seen de-duplication of a plain list, used to specify the order of
the distinct-label list and of the retained row keys. -/
def firstSeenGo {α : Type} [DecidableEq α] (seen : List α) : List α → List α
  | [] => []
  | x :: xs =>
    if x ∈ seen then firstSeenGo seen xs else x :: firstSeenGo (x :: seen) xs

def firstSeen {α : Type} [DecidableEq α] (l : List α) : List α := firstSeenGo [] l

/-- The maximum of the counts recorded for `lab` among the scanned
(count, label) matches (0 when none). -/
def maxCount : List (Nat × String) → String → Nat
  | [], _ => 0
  | p :: rest, lab =>
    if p.2 = lab then max p.1 (maxCount rest lab) else maxCount rest lab

/-! ## Theorems -/

/-- C6: on the text `"Acme Corp Gold 12 References 5 Certified Experts 40 %
Springfield Average Project: $5k"`, `parse_partner_text` returns a draft
with Name `"Acme Corp"`, Tier `"Gold"`, Location `"Springfield"`, a
reference count of 12 and a certified-expert count of 5. -/
theorem c6_acme_example :
    parsePartnerText
        "Acme Corp Gold 12 References 5 Certified Experts 40 % Springfield Average Project: $5k".toList
      = some ⟨"Acme Corp", "Gold", "Springfield", "12", "5"⟩
    ∧ natOfDigits "12".toList = 12 ∧ natOfDigits "5".toList = 5 := by
  decide

/-- C2 (counterexample): the slugifier is not idempotent — re-applying it
to the already-slugified identifier `RI_Agriculture` prepends a second
`RI_` prefix. -/
theorem c2_counterexample_not_idempotent :
    makeSafeRiCol "Agriculture" = "RI_Agriculture"
    ∧ makeSafeRiCol (makeSafeRiCol "Agriculture") = "RI_RI_Agriculture"
    ∧ makeSafeRiCol (makeSafeRiCol "Agriculture") ≠ makeSafeRiCol "Agriculture" := by
  decide

/-- C2 (amended): `make_safe_ri_column` is injective on the 22 catalog
labels (the 22 derived identifiers are pairwise distinct), and re-applying
it to a derived identifier preserves the slug body, merely prepending
another `RI_` prefix. -/
theorem c2_slug_injective_and_prefix_stable :
    (ALLOWED_INDUSTRIES.map makeSafeRiCol).Nodup
    ∧ ∀ lab ∈ ALLOWED_INDUSTRIES,
        makeSafeRiCol (makeSafeRiCol lab) = "RI_" ++ makeSafeRiCol lab := by
  decide

theorem c2_witness :
    makeSafeRiCol (makeSafeRiCol "Agriculture") = "RI_" ++ makeSafeRiCol "Agriculture" :=
  c2_slug_injective_and_prefix_stable.2 "Agriculture" (by decide)

/-- C3 (counterexample): on `"Acme Gold 3 References"` the normalized text
has no location segment between a `%` and `"Average Project:"`, yet the
returned draft's Location is the sentinel `"N/A"`, not `"unknown"`. -/
theorem c3_counterexample_sentinel_is_na :
    locSearch (normalize "Acme Gold 3 References".toList) = none
    ∧ parsePartnerText "Acme Gold 3 References".toList
        = some ⟨"Acme", "Gold", "N/A", "3", "0"⟩
    ∧ ("N/A" : String) ≠ "unknown" := by
  decide

/-- C3 (amended): when the normalized text contains no location segment
bounded between a percent sign and `"Average Project:"`, the Location field
of any returned draft is the sentinel string `"N/A"`. -/
theorem c3_location_sentinel (t : List Char) (r : PartnerRow)
    (hloc : locSearch (normalize t) = none)
    (hr : parsePartnerText t = some r) : r.location = "N/A" := by
  unfold parsePartnerText at hr
  simp only [] at hr
  split at hr
  · exact absurd hr (by simp)
  · split at hr
    · exact absurd hr (by simp)
    · split at hr
      · exact absurd hr (by simp)
      · injection hr with h
        subst h
        simp [rowLocation, hloc]

theorem c3_witness :
    (⟨"Acme", "Gold", "N/A", "7", "0"⟩ : PartnerRow).location = "N/A" :=
  c3_location_sentinel "Acme Gold 7 References".toList
    ⟨"Acme", "Gold", "N/A", "7", "0"⟩ (by decide) (by decide)

/-- C7 (counterexample): on `"Acme Gold 00 References"` the extracted
Location is the unknown sentinel and both counts are numerically zero, yet
`parse_partner_text` returns a draft — the source compares the captured
digit strings with the string `"0"`, and `"00"` is not `"0"`. -/
theorem c7_counterexample_zero_strings :
    rowLocation (normalize "Acme Gold 00 References".toList) = "N/A".toList
    ∧ natOfDigits (rowRefs (normalize "Acme Gold 00 References".toList)) = 0
    ∧ natOfDigits (rowExperts (normalize "Acme Gold 00 References".toList)) = 0
    ∧ parsePartnerText "Acme Gold 00 References".toList
        = some ⟨"Acme", "Gold", "N/A", "00", "0"⟩ := by
  decide

/-- C10: with an empty profile URL, `fetch_profile_extras` returns the
all-defaults extras without consulting the fetch result: empty Certified
Versions, the four numeric extras absent, empty Reference Industries, and
all 22 RI columns 0. -/
theorem c10_empty_url_defaults :
    (∀ fetched, fetchProfileExtras "" fetched = defaultExtras)
    ∧ defaultExtras.certifiedVersions = ""
    ∧ defaultExtras.referencesTotal = none
    ∧ defaultExtras.customerRetention = none
    ∧ defaultExtras.largestReferenceUsers = none
    ∧ defaultExtras.averageReferenceUsers = none
    ∧ defaultExtras.referenceIndustries = ""
    ∧ ∀ col ∈ ALLOWED_RI_COLS, dictGet defaultExtras.riCounts col = some 0 := by
  refine ⟨fun fetched => ?_, rfl, rfl, rfl, rfl, rfl, rfl, ?_⟩
  · simp [fetchProfileExtras]
  · decide

theorem c10_witness :
    dictGet defaultExtras.riCounts "RI_Agriculture" = some 0 :=
  c10_empty_url_defaults.2.2.2.2.2.2.2 "RI_Agriculture" (by decide)

/-! ### Supporting lemmas -/

theorem mem_of_mem_dedupFirstGo {l : List CleanRow} :
    ∀ {seen r}, r ∈ dedupFirstGo seen l → r ∈ l := by
  induction l with
  | nil => intro seen r h; simp [dedupFirstGo] at h
  | cons x xs ih =>
    intro seen r h
    unfold dedupFirstGo at h
    split at h
    · exact List.mem_cons_of_mem _ (ih h)
    · rcases List.mem_cons.mp h with rfl | h2
      · exact List.mem_cons_self _ _
      · exact List.mem_cons_of_mem _ (ih h2)

/-- C4: when no `References - N` anchor matches in the (normalized) profile
text, ReferencesTotal stays absent and every one of the 22 RI columns is 0,
whatever else the text contains. -/
theorem c4_no_anchor_all_zero (norm : List Char)
    (h : refsTotalSearch norm = none) :
    (extractExtras norm).referencesTotal = none
    ∧ ∀ col ∈ ALLOWED_RI_COLS, dictGet (extractExtras norm).riCounts col = some 0 := by
  have hx : extractExtras norm =
      ⟨certVersionsRender norm, none, (retentionSearch norm).map natOfDigits,
        (sizeSearch "largest:".toList norm).map natOfDigits,
        (sizeSearch "average:".toList norm).map natOfDigits, "", initRiZeroDict⟩ := by
    unfold extractExtras
    rw [h]
  rw [hx]
  refine ⟨rfl, ?_⟩
  show ∀ col ∈ ALLOWED_RI_COLS, dictGet initRiZeroDict col = some 0
  decide

/-- C4 witness: a text with an industry-looking substring but no anchor. -/
theorem c4_witness :
    (extractExtras "5 Agriculture hello".toList).referencesTotal = none
    ∧ ∀ col ∈ ALLOWED_RI_COLS,
        dictGet (extractExtras "5 Agriculture hello".toList).riCounts col = some 0 :=
  c4_no_anchor_all_zero "5 Agriculture hello".toList (by decide)

/-- C8: every row of the final table has References > 0 or Certified
Experts > 0; a draft whose coerced counts are both 0 never survives. -/
theorem c8_zero_rows_dropped (rows : List RawRow) (r : CleanRow)
    (h : r ∈ cleanAndExport rows) :
    0 < r.references ∨ 0 < r.certifiedExperts := by
  have hmem : r ∈ preDedup rows := mem_of_mem_dedupFirstGo h
  have hok := List.of_mem_filter hmem
  simpa [countOk, Bool.or_eq_true, decide_eq_true_eq] using hok

def c8row : RawRow :=
  ⟨some "Acme", some "Gold", some "Cairo", some "3", some "0",
    some "https://example.com/p", none, none, none, none, none, none, []⟩

theorem c8_witness :
    0 < (cleanRow c8row).references ∨ 0 < (cleanRow c8row).certifiedExperts :=
  c8_zero_rows_dropped [c8row] (cleanRow c8row) (by decide)

theorem dedupFirstGo_map_key (l : List CleanRow) :
    ∀ seen, (dedupFirstGo seen l).map rowKey = firstSeenGo seen (l.map rowKey) := by
  induction l with
  | nil => intro seen; rfl
  | cons x xs ih =>
    intro seen
    unfold dedupFirstGo
    simp only [List.map_cons]
    unfold firstSeenGo
    by_cases h : rowKey x ∈ seen
    · simp [h, ih]
    · simp [h, ih]

theorem dedupFirstGo_first (l : List CleanRow) :
    ∀ seen r, r ∈ dedupFirstGo seen l →
      rowKey r ∉ seen ∧ l.find? (fun x => decide (rowKey x = rowKey r)) = some r := by
  induction l with
  | nil => intro seen r h; simp [dedupFirstGo] at h
  | cons x xs ih =>
    intro seen r h
    unfold dedupFirstGo at h
    split at h
    · rename_i h1
      obtain ⟨hnot, hfind⟩ := ih seen r h
      have hne : ¬(rowKey x = rowKey r) := fun he => hnot (he ▸ h1)
      exact ⟨hnot, by simp [List.find?, hne, hfind]⟩
    · rename_i h1
      rcases List.mem_cons.mp h with rfl | hmem
      · exact ⟨h1, by simp [List.find?]⟩
      · obtain ⟨hnot, hfind⟩ := ih _ r hmem
        have hne : ¬(rowKey x = rowKey r) := by
          intro he
          exact hnot (by simp [he])
        refine ⟨fun hin => hnot (List.mem_cons_of_mem _ hin), ?_⟩
        simp [List.find?, hne, hfind]

/-- C9: the assembler de-duplicates by (Name, Tier, Location): the keys of
the final table are the first-seen de-duplication of the filtered rows'
keys, and every retained row is literally the first filtered row bearing
its key (later rows with the same key are dropped whatever their other
fields, e.g. a different Profile URL). -/
theorem c9_dedup_first_seen (rows : List RawRow) :
    (cleanAndExport rows).map rowKey = firstSeen ((preDedup rows).map rowKey)
    ∧ ∀ r ∈ cleanAndExport rows,
        (preDedup rows).find? (fun x => decide (rowKey x = rowKey r)) = some r := by
  constructor
  · exact dedupFirstGo_map_key _ _
  · intro r h
    exact (dedupFirstGo_first _ _ r h).2

def c9rowA : RawRow :=
  ⟨some "Acme", some "Gold", some "Cairo", some "3", some "0",
    some "https://example.com/a", none, none, none, none, none, none, []⟩

def c9rowB : RawRow :=
  ⟨some "Acme", some "Gold", some "Cairo", some "5", some "0",
    some "https://example.com/b", none, none, none, none, none, none, []⟩

/-- C9 witness: two drafts with the same key and different Profile URLs;
the retained row is the first. -/
theorem c9_witness :
    (cleanAndExport [c9rowA, c9rowB]).map rowKey
        = firstSeen ((preDedup [c9rowA, c9rowB]).map rowKey)
    ∧ (preDedup [c9rowA, c9rowB]).find?
        (fun x => decide (rowKey x = rowKey (cleanRow c9rowA))) = some (cleanRow c9rowA) :=
  ⟨(c9_dedup_first_seen [c9rowA, c9rowB]).1,
    (c9_dedup_first_seen [c9rowA, c9rowB]).2 (cleanRow c9rowA) (by decide)⟩

/-- C7 (amended): `parse_partner_text` returns null exactly when (i) no
tier keyword matches, or (ii) the stripped pre-tier segment is empty or
equals `find best match` after lowercasing, or (iii) the extracted Location
is the `N/A` sentinel and both captured count strings are literally `"0"`
(the source compares the captured digit strings with `"0"`, so a captured
`"00"` is not treated as zero); in every other case it returns a draft. -/
theorem c7_null_characterisation (t : List Char) :
    parsePartnerText t = none ↔
      tierSearch (normalize t) = none
      ∨ (∃ m, tierSearch (normalize t) = some m
           ∧ (stripWs ((normalize t).take m.1) = []
              ∨ (stripWs ((normalize t).take m.1)).map Char.toLower
                  = "find best match".toList))
      ∨ (rowLocation (normalize t) = "N/A".toList ∧ rowRefs (normalize t) = ['0']
           ∧ rowExperts (normalize t) = ['0']) := by
  cases htier : tierSearch (normalize t) with
  | none => simp [parsePartnerText, htier]
  | some m =>
    have hEq : parsePartnerText t =
        (if (stripWs ((normalize t).take m.1)).isEmpty
            || (stripWs ((normalize t).take m.1)).map Char.toLower = "find best match".toList
          then none
          else if rowLocation (normalize t) = "N/A".toList && rowRefs (normalize t) = ['0']
              && rowExperts (normalize t) = ['0']
            then none
            else some ⟨⟨stripWs ((normalize t).take m.1)⟩, ⟨m.2⟩, ⟨rowLocation (normalize t)⟩,
              ⟨rowRefs (normalize t)⟩, ⟨rowExperts (normalize t)⟩⟩) := by
      simp only [parsePartnerText, htier]
    rw [hEq]
    split
    · rename_i h1
      simp only [Bool.or_eq_true, List.isEmpty_iff, decide_eq_true_eq] at h1
      constructor
      · intro _
        exact Or.inr (Or.inl ⟨m, rfl, h1⟩)
      · intro _
        rfl
    · split
      · rename_i h1 h2
        simp only [Bool.and_eq_true, decide_eq_true_eq] at h2
        constructor
        · intro _
          exact Or.inr (Or.inr ⟨h2.1.1, h2.1.2, h2.2⟩)
        · intro _
          rfl
      · rename_i h1 h2
        simp only [Bool.or_eq_true, List.isEmpty_iff, decide_eq_true_eq] at h1
        simp only [Bool.and_eq_true, decide_eq_true_eq] at h2
        constructor
        · intro h
          exact absurd h (by simp)
        · rintro (h | ⟨m', hm', hname⟩ | ⟨hl, hr, he⟩)
          · exact absurd h (by simp)
          · injection hm' with hmm
            subst hmm
            exact absurd hname h1
          · exact absurd ⟨⟨hl, hr⟩, he⟩ h2

theorem dictGet_dictSet_self (d : List (String × Nat)) (k : String) (v : Nat) :
    dictGet (dictSet d k v) k = some v := by
  induction d with
  | nil => simp [dictSet, dictGet]
  | cons p rest ih =>
    by_cases h : p.1 = k
    · simp [dictSet, h, dictGet]
    · simp [dictSet, h, dictGet, ih]

theorem dictGet_dictSet_ne (d : List (String × Nat)) (k v k') (h : k' ≠ k) :
    dictGet (dictSet d k v) k' = dictGet d k' := by
  have hkk : ¬(k = k') := fun he => h he.symm
  induction d with
  | nil => simp [dictSet, dictGet, hkk]
  | cons p rest ih =>
    unfold dictSet
    by_cases hp : p.1 = k
    · simp only [if_pos hp]
      unfold dictGet
      have hp' : ¬(p.1 = k') := by rw [hp]; exact hkk
      simp [hkk, hp']
    · simp only [if_neg hp]
      unfold dictGet
      by_cases hp' : p.1 = k'
      · simp [hp']
      · simp [hp', ih]

theorem map_fst_dictSet_mem (d : List (String × Nat)) (k v)
    (h : k ∈ d.map Prod.fst) : (dictSet d k v).map Prod.fst = d.map Prod.fst := by
  induction d with
  | nil => simp at h
  | cons p rest ih =>
    rw [List.map_cons] at h
    unfold dictSet
    by_cases hp : p.1 = k
    · simp only [if_pos hp]
      simp [hp]
    · simp only [if_neg hp]
      rcases List.mem_cons.mp h with he | hmem
      · exact absurd he.symm hp
      · simp [ih hmem]

theorem initRi_map_fst : initRiZeroDict.map Prod.fst = ALLOWED_RI_COLS := by
  decide

theorem initRi_get_zero : ∀ col ∈ ALLOWED_RI_COLS, dictGet initRiZeroDict col = some 0 := by
  decide

theorem allowedCol_eq_some {lab col : String} (h : allowedLabelToRiCol lab = some col) :
    lab ∈ ALLOWED_INDUSTRIES ∧ col = makeSafeRiCol lab := by
  unfold allowedLabelToRiCol at h
  split at h
  · exact ⟨by assumption, (Option.some.inj h).symm⟩
  · simp at h

theorem allowedCol_of_mem {lab : String} (h : lab ∈ ALLOWED_INDUSTRIES) :
    allowedLabelToRiCol lab = some (makeSafeRiCol lab) := by
  unfold allowedLabelToRiCol
  simp [h]

theorem riColsNodup : (ALLOWED_INDUSTRIES.map makeSafeRiCol).Nodup := by
  decide

theorem makeSafeRiCol_injOn {a b : String} (ha : a ∈ ALLOWED_INDUSTRIES)
    (hb : b ∈ ALLOWED_INDUSTRIES) (h : makeSafeRiCol a = makeSafeRiCol b) : a = b :=
  List.inj_on_of_nodup_map riColsNodup ha hb h

theorem findSome?_mem {α β : Type} {l : List α} {f : α → Option β} {b : β}
    (h : l.findSome? f = some b) : ∃ a ∈ l, f a = some b := by
  induction l with
  | nil => simp [List.findSome?] at h
  | cons x xs ih =>
    rw [List.findSome?_cons] at h
    cases hfx : f x with
    | some b' =>
      rw [hfx] at h
      exact ⟨x, List.mem_cons_self _ _, hfx.trans h⟩
    | none =>
      rw [hfx] at h
      obtain ⟨a, ha, hfa⟩ := ih h
      exact ⟨a, List.mem_cons_of_mem _ ha, hfa⟩

theorem industryLabelAt_mem {r : List Char} {lab : String} {rest : List Char}
    (h : industryLabelAt r = some (lab, rest)) : lab ∈ sortedIndustries := by
  obtain ⟨a, ha, hfa⟩ := findSome?_mem h
  split at hfa
  · split at hfa
    · split at hfa
      · injection hfa with h2
        injection h2 with h3 h4
        subst h3
        exact ha
      · simp at hfa
    · simp at hfa
  · simp at hfa

theorem industryAt_label_mem {s : List Char} {i n : Nat} {lab : String} {e : Nat}
    (h : industryAt s i = some ((n, lab), e)) : lab ∈ sortedIndustries := by
  unfold industryAt at h
  simp only [] at h
  split at h
  · split at h
    · simp at h
    · split at h
      · simp at h
      · split at h
        · rename_i lab' rest' heq
          injection h with h2
          have h3 : lab' = lab := congrArg (fun q => q.1.2) h2
          exact h3 ▸ industryLabelAt_mem heq
        · simp at h
  · simp at h

theorem findAllGo_label_mem {s : List Char} :
    ∀ (fuel i : Nat) (q : Nat × String), q ∈ findAllGo industryAt s fuel i →
      q.2 ∈ sortedIndustries := by
  intro fuel
  induction fuel with
  | zero => intro i q h; simp [findAllGo] at h
  | succ f ih =>
    intro i q h
    unfold findAllGo at h
    split at h
    · simp at h
    · split at h
      · rename_i a e heq
        rcases List.mem_cons.mp h with rfl | h2
        · exact industryAt_label_mem (show industryAt s i = some ((q.1, q.2), e) by
            simpa using heq)
        · exact ih _ q h2
      · exact ih _ q h

theorem industryFound_label_mem {norm : List Char} {q : Nat × String}
    (h : q ∈ industryFound norm) : q.2 ∈ sortedIndustries :=
  findAllGo_label_mem _ _ q h

theorem sortedIndustries_sub : ∀ x ∈ sortedIndustries, x ∈ ALLOWED_INDUSTRIES := by
  decide

theorem maxCount_not_mem {found : List (Nat × String)} {lab : String}
    (h : lab ∉ found.map Prod.snd) : maxCount found lab = 0 := by
  induction found with
  | nil => rfl
  | cons p rest ih =>
    rw [List.map_cons] at h
    have h1 : ¬(p.2 = lab) := fun he => h (he ▸ List.mem_cons_self _ _)
    have h2 : lab ∉ rest.map Prod.snd := fun hm => h (List.mem_cons_of_mem _ hm)
    unfold maxCount
    simp [h1, ih h2]

theorem dictGet_dedupAdd (acc : List (String × Nat)) (p : Nat × String) (lab : String) :
    dictGet (dedupAdd acc p) lab =
      if p.2 = lab then some (max ((dictGet acc lab).getD 0) p.1) else dictGet acc lab := by
  induction acc with
  | nil =>
    by_cases h : p.2 = lab
    · simp [dedupAdd, dictGet, h]
    · simp [dedupAdd, dictGet, h]
  | cons q rest ih =>
    unfold dedupAdd
    by_cases hq : q.1 = p.2
    · simp only [if_pos hq]
      by_cases hl : p.2 = lab
      · have hq1 : q.1 = lab := hq.trans hl
        simp [dictGet, hq1, hl]
      · have hq1 : ¬(q.1 = lab) := by rw [hq]; exact hl
        simp [dictGet, hq1, hl]
    · simp only [if_neg hq]
      by_cases hql : q.1 = lab
      · have hl : ¬(p.2 = lab) := fun he => hq (hql.trans he.symm)
        simp [dictGet, hql, hl]
      · simp [dictGet, hql, ih]

theorem dictGet_foldl_dedupAdd (found : List (Nat × String)) :
    ∀ (acc : List (String × Nat)) (lab : String),
      dictGet (found.foldl dedupAdd acc) lab =
        if lab ∈ found.map Prod.snd
        then some (max ((dictGet acc lab).getD 0) (maxCount found lab))
        else dictGet acc lab := by
  induction found with
  | nil => intro acc lab; simp
  | cons p rest ih =>
    intro acc lab
    rw [List.foldl_cons, ih (dedupAdd acc p) lab, dictGet_dedupAdd]
    by_cases hmem : lab ∈ rest.map Prod.snd
    · simp only [if_pos hmem]
      by_cases hp : p.2 = lab
      · have hmem2 : lab ∈ (p :: rest).map Prod.snd := by
          rw [List.map_cons]
          exact hp ▸ List.mem_cons_self _ _
        rw [if_pos hp, if_pos hmem2]
        simp [maxCount, hp, Nat.max_assoc]
      · have hmem2 : lab ∈ (p :: rest).map Prod.snd := by
          rw [List.map_cons]
          exact List.mem_cons_of_mem _ hmem
        rw [if_neg hp, if_pos hmem2]
        simp [maxCount, hp]
    · simp only [if_neg hmem]
      by_cases hp : p.2 = lab
      · have hmem2 : lab ∈ (p :: rest).map Prod.snd := by
          rw [List.map_cons]
          exact hp ▸ List.mem_cons_self _ _
        rw [if_pos hp, if_pos hmem2]
        simp [maxCount, hp, maxCount_not_mem hmem]
      · have hmem2 : lab ∉ (p :: rest).map Prod.snd := by
          rw [List.map_cons]
          intro hx
          rcases List.mem_cons.mp hx with he | h2
          · exact hp he.symm
          · exact hmem h2
        rw [if_neg hp, if_neg hmem2]

theorem firstSeenGo_congr {α : Type} [DecidableEq α] (l : List α) :
    ∀ s1 s2, (∀ x, x ∈ s1 ↔ x ∈ s2) → firstSeenGo s1 l = firstSeenGo s2 l := by
  induction l with
  | nil => intro s1 s2 _; rfl
  | cons x xs ih =>
    intro s1 s2 hs
    unfold firstSeenGo
    by_cases h : x ∈ s1
    · rw [if_pos h, if_pos ((hs x).mp h)]
      exact ih s1 s2 hs
    · rw [if_neg h, if_neg (fun hx => h ((hs x).mpr hx))]
      exact congrArg (x :: ·) (ih (x :: s1) (x :: s2) (by intro y; simp [hs y]))

theorem map_fst_dedupAdd_mem (acc : List (String × Nat)) (p : Nat × String)
    (h : p.2 ∈ acc.map Prod.fst) :
    (dedupAdd acc p).map Prod.fst = acc.map Prod.fst := by
  induction acc with
  | nil => simp at h
  | cons q rest ih =>
    unfold dedupAdd
    by_cases hq : q.1 = p.2
    · simp only [if_pos hq]
      simp [hq]
    · simp only [if_neg hq]
      rw [List.map_cons] at h
      rcases List.mem_cons.mp h with he | hmem
      · exact absurd he.symm hq
      · simp [ih hmem]

theorem map_fst_dedupAdd_not_mem (acc : List (String × Nat)) (p : Nat × String)
    (h : p.2 ∉ acc.map Prod.fst) :
    (dedupAdd acc p).map Prod.fst = acc.map Prod.fst ++ [p.2] := by
  induction acc with
  | nil => simp [dedupAdd]
  | cons q rest ih =>
    rw [List.map_cons] at h
    have hq : ¬(q.1 = p.2) := fun he => h (he ▸ List.mem_cons_self _ _)
    have h2 : p.2 ∉ rest.map Prod.fst := fun hm => h (List.mem_cons_of_mem _ hm)
    unfold dedupAdd
    simp only [if_neg hq]
    simp [ih h2]

theorem map_fst_foldl_dedupAdd (found : List (Nat × String)) :
    ∀ acc : List (String × Nat),
      (found.foldl dedupAdd acc).map Prod.fst
        = acc.map Prod.fst ++ firstSeenGo (acc.map Prod.fst) (found.map Prod.snd) := by
  induction found with
  | nil => intro acc; simp [firstSeenGo]
  | cons p rest ih =>
    intro acc
    rw [List.foldl_cons, List.map_cons, ih (dedupAdd acc p)]
    simp only [firstSeenGo]
    by_cases h : p.2 ∈ acc.map Prod.fst
    · rw [if_pos h, map_fst_dedupAdd_mem acc p h]
    · rw [if_neg h, map_fst_dedupAdd_not_mem acc p h]
      rw [firstSeenGo_congr (rest.map Prod.snd) (acc.map Prod.fst ++ [p.2])
        (p.2 :: acc.map Prod.fst) (by intro y; simp [or_comm])]
      simp

theorem firstSeenGo_nodup {α : Type} [DecidableEq α] (l : List α) :
    ∀ seen, (firstSeenGo seen l).Nodup ∧ ∀ x ∈ firstSeenGo seen l, x ∉ seen := by
  induction l with
  | nil => intro seen; exact ⟨List.nodup_nil, by simp [firstSeenGo]⟩
  | cons x xs ih =>
    intro seen
    unfold firstSeenGo
    by_cases h : x ∈ seen
    · rw [if_pos h]
      exact ih seen
    · rw [if_neg h]
      obtain ⟨hnd, hni⟩ := ih (x :: seen)
      refine ⟨List.nodup_cons.mpr ⟨fun hx => (hni x hx) (List.mem_cons_self _ _), hnd⟩, ?_⟩
      intro y hy
      rcases List.mem_cons.mp hy with rfl | hy2
      · exact h
      · exact fun hys => (hni y hy2) (List.mem_cons_of_mem _ hys)

theorem map_fst_writeRiCounts (d : List (String × Nat)) :
    ∀ acc, acc.map Prod.fst = ALLOWED_RI_COLS →
      (writeRiCounts acc d).map Prod.fst = ALLOWED_RI_COLS := by
  induction d with
  | nil => intro acc h; exact h
  | cons p rest ih =>
    intro acc h
    unfold writeRiCounts
    rw [List.foldl_cons]
    cases hcol : allowedLabelToRiCol p.1 with
    | none =>
      exact ih acc h
    | some col =>
      obtain ⟨hp1, hce⟩ := allowedCol_eq_some hcol
      have hckeys : col ∈ acc.map Prod.fst := by
        rw [h, hce]
        exact List.mem_map_of_mem _ hp1
      exact ih (dictSet acc col p.2)
        (by rw [map_fst_dictSet_mem acc col p.2 hckeys]; exact h)

theorem dictGet_writeRiCounts_skip (d : List (String × Nat)) :
    ∀ acc col, (∀ q ∈ d, allowedLabelToRiCol q.1 ≠ some col) →
      dictGet (writeRiCounts acc d) col = dictGet acc col := by
  induction d with
  | nil => intro acc col _; rfl
  | cons p rest ih =>
    intro acc col h
    unfold writeRiCounts
    rw [List.foldl_cons]
    cases hcol : allowedLabelToRiCol p.1 with
    | none =>
      exact ih acc col (fun q hq => h q (List.mem_cons_of_mem _ hq))
    | some c =>
      have hc : col ≠ c := fun he =>
        h p (List.mem_cons_self _ _) (by rw [hcol, he])
      show dictGet (writeRiCounts (dictSet acc c p.2) rest) col = dictGet acc col
      rw [ih (dictSet acc c p.2) col (fun q hq => h q (List.mem_cons_of_mem _ hq))]
      exact dictGet_dictSet_ne acc c p.2 col hc

theorem dictGet_writeRiCounts_hit (d : List (String × Nat)) :
    ∀ acc lab, (d.map Prod.fst).Nodup →
      (∀ l ∈ d.map Prod.fst, l ∈ ALLOWED_INDUSTRIES) →
      lab ∈ d.map Prod.fst →
      acc.map Prod.fst = ALLOWED_RI_COLS →
      dictGet (writeRiCounts acc d) (makeSafeRiCol lab) = dictGet d lab := by
  induction d with
  | nil => intro acc lab _ _ h _; simp at h
  | cons p rest ih =>
    intro acc lab hnd hsub hmem hacc
    have hp1 : p.1 ∈ ALLOWED_INDUSTRIES := hsub p.1 (by simp)
    rw [List.map_cons] at hnd hsub hmem
    unfold writeRiCounts
    rw [List.foldl_cons, allowedCol_of_mem hp1]
    by_cases hlab : p.1 = lab
    · have hnotin : p.1 ∉ rest.map Prod.fst := (List.nodup_cons.mp hnd).1
      have hskip : ∀ q ∈ rest, allowedLabelToRiCol q.1 ≠ some (makeSafeRiCol p.1) := by
        intro q hq he
        obtain ⟨hqc, hce⟩ := allowedCol_eq_some he
        have hq1 : q.1 = p.1 := makeSafeRiCol_injOn hqc hp1 hce.symm
        exact hnotin (hq1 ▸ List.mem_map_of_mem Prod.fst hq)
      have hw : (rest.foldl (fun acc p =>
          match allowedLabelToRiCol p.1 with
          | some col => dictSet acc col p.2
          | none => acc) (dictSet acc (makeSafeRiCol p.1) p.2))
          = writeRiCounts (dictSet acc (makeSafeRiCol p.1) p.2) rest := rfl
      rw [hw, hlab, dictGet_writeRiCounts_skip rest _ _ (hlab ▸ hskip),
        dictGet_dictSet_self]
      simp [dictGet, hlab]
    · have hmem2 : lab ∈ rest.map Prod.fst := by
        rcases List.mem_cons.mp hmem with he | h2
        · exact absurd he.symm hlab
        · exact h2
      have hw : (rest.foldl (fun acc p =>
          match allowedLabelToRiCol p.1 with
          | some col => dictSet acc col p.2
          | none => acc) (dictSet acc (makeSafeRiCol p.1) p.2))
          = writeRiCounts (dictSet acc (makeSafeRiCol p.1) p.2) rest := rfl
      have hcolkeys : (dictSet acc (makeSafeRiCol p.1) p.2).map Prod.fst
          = ALLOWED_RI_COLS := by
        rw [map_fst_dictSet_mem acc _ p.2
          (by rw [hacc]; exact List.mem_map_of_mem _ hp1)]
        exact hacc
      rw [hw, ih _ lab (List.nodup_cons.mp hnd).2
        (fun l hl => hsub l (List.mem_cons_of_mem _ hl)) hmem2 hcolkeys]
      simp [dictGet, hlab]

/-- The value of `extractExtras` when the `References - N` anchor matched. -/
theorem extractExtras_some (norm : List Char) (p : List Char × Nat)
    (h : refsTotalSearch norm = some p) :
    extractExtras norm =
      ⟨certVersionsRender norm, some (natOfDigits p.1),
        (retentionSearch norm).map natOfDigits,
        (sizeSearch "largest:".toList norm).map natOfDigits,
        (sizeSearch "average:".toList norm).map natOfDigits,
        ⟨renderIndustries (dedupFold (industryFound norm))⟩,
        writeRiCounts initRiZeroDict (dedupFold (industryFound norm))⟩ := by
  unfold extractExtras
  rw [h]

theorem industryFound_empty_of_no_anchor {norm : List Char}
    (h : refsTotalSearch norm = none) : industryFound norm = [] := by
  unfold industryFound industryBlock
  rw [h]
  rfl

theorem mem_of_mem_firstSeenGo {α : Type} [DecidableEq α] (l : List α) :
    ∀ seen x, x ∈ firstSeenGo seen l → x ∈ l := by
  induction l with
  | nil => intro seen x h; simp [firstSeenGo] at h
  | cons y ys ih =>
    intro seen x h
    unfold firstSeenGo at h
    by_cases hy : y ∈ seen
    · rw [if_pos hy] at h
      exact List.mem_cons_of_mem _ (ih seen x h)
    · rw [if_neg hy] at h
      rcases List.mem_cons.mp h with rfl | h2
      · exact List.mem_cons_self _ _
      · exact List.mem_cons_of_mem _ (ih _ x h2)

theorem dedupFold_label_mem {found : List (Nat × String)} {q : String × Nat}
    (h : q ∈ dedupFold found) : q.1 ∈ found.map Prod.snd := by
  have h1 : q.1 ∈ (found.foldl dedupAdd []).map Prod.fst :=
    List.mem_map_of_mem Prod.fst h
  rw [map_fst_foldl_dedupAdd found []] at h1
  simp only [List.map_nil, List.nil_append] at h1
  exact mem_of_mem_firstSeenGo _ _ _ h1

theorem map_fst_pair_map {α β : Type} (g : α → β) (l : List α) :
    (l.map (fun c => (c, g c))).map Prod.fst = l := by
  induction l with
  | nil => rfl
  | cons x xs ih => simp [ih]

theorem extract_riCounts_keys (norm : List Char) :
    (extractExtras norm).riCounts.map Prod.fst = ALLOWED_RI_COLS := by
  cases h : refsTotalSearch norm with
  | none =>
    unfold extractExtras
    rw [h]
    exact initRi_map_fst
  | some p =>
    rw [extractExtras_some norm p h]
    exact map_fst_writeRiCounts _ initRiZeroDict initRi_map_fst

theorem mem_firstSeenGo_of_mem {α : Type} [DecidableEq α] (l : List α) :
    ∀ seen x, x ∈ l → x ∉ seen → x ∈ firstSeenGo seen l := by
  induction l with
  | nil => intro seen x h _; simp at h
  | cons y ys ih =>
    intro seen x h hns
    unfold firstSeenGo
    by_cases hy : y ∈ seen
    · rw [if_pos hy]
      rcases List.mem_cons.mp h with rfl | h2
      · exact absurd hy hns
      · exact ih seen x h2 hns
    · rw [if_neg hy]
      rcases List.mem_cons.mp h with rfl | h2
      · exact List.mem_cons_self _ _
      · by_cases hxy : x = y
        · subst hxy
          exact List.mem_cons_self _ _
        · exact List.mem_cons_of_mem _ (ih (y :: seen) x h2 (by simp [hxy, hns]))

/-- C1: for every input whatsoever, the RI-column mapping of the extras and
of every assembled record consists of exactly the 22 catalog-derived
columns — none missing, none extraneous — there are 22 of them, and every
catalog label that never matched keeps count 0. -/
theorem c1_industry_counts_exact :
    (∀ url fetched,
        ((fetchProfileExtras url fetched).riCounts).map Prod.fst = ALLOWED_RI_COLS)
    ∧ ALLOWED_RI_COLS.length = 22
    ∧ (∀ norm lab, lab ∈ ALLOWED_INDUSTRIES →
        lab ∉ (industryFound norm).map Prod.snd →
        dictGet (extractExtras norm).riCounts (makeSafeRiCol lab) = some 0)
    ∧ (∀ rows r, r ∈ cleanAndExport rows →
        (r.riCounts).map Prod.fst = ALLOWED_RI_COLS) := by
  refine ⟨?_, by decide, ?_, ?_⟩
  · intro url fetched
    unfold fetchProfileExtras
    by_cases hurl : url = ""
    · rw [if_pos hurl]
      exact initRi_map_fst
    · rw [if_neg hurl]
      cases fetched with
      | none => exact initRi_map_fst
      | some raw => exact extract_riCounts_keys (normalize raw)
  · intro norm lab hcat hnot
    cases h : refsTotalSearch norm with
    | none =>
      unfold extractExtras
      rw [h]
      exact initRi_get_zero _ (List.mem_map_of_mem _ hcat)
    | some p =>
      rw [extractExtras_some norm p h]
      show dictGet (writeRiCounts initRiZeroDict (dedupFold (industryFound norm)))
        (makeSafeRiCol lab) = some 0
      have hskip : ∀ q ∈ dedupFold (industryFound norm),
          allowedLabelToRiCol q.1 ≠ some (makeSafeRiCol lab) := by
        intro q hq he
        obtain ⟨hqc, hce⟩ := allowedCol_eq_some he
        have hq1 : q.1 = lab := makeSafeRiCol_injOn hqc hcat hce.symm
        exact hnot (hq1 ▸ dedupFold_label_mem hq)
      rw [dictGet_writeRiCounts_skip _ _ _ hskip]
      exact initRi_get_zero _ (List.mem_map_of_mem _ hcat)
  · intro rows r h
    have hmem : r ∈ preDedup rows := mem_of_mem_dedupFirstGo h
    have h2 := List.mem_of_mem_filter hmem
    have h3 := List.mem_of_mem_filter h2
    obtain ⟨raw, _, rfl⟩ := List.mem_map.mp h3
    exact map_fst_pair_map _ ALLOWED_RI_COLS

def c1row : RawRow :=
  ⟨some "Beta", some "Silver", some "Giza", some "2", some "1",
    none, none, none, none, none, none, none, []⟩

theorem c1_witness :
    dictGet (extractExtras "x".toList).riCounts (makeSafeRiCol "NGO") = some 0
    ∧ (cleanRow c1row).riCounts.map Prod.fst = ALLOWED_RI_COLS :=
  ⟨c1_industry_counts_exact.2.2.1 "x".toList "NGO" (by decide) (by decide),
    c1_industry_counts_exact.2.2.2 [c1row] (cleanRow c1row) (by decide)⟩

/-- C5: a label recurring in the bounded industry block keeps the maximum
of the counts seen (recorded in its RI column), and the `Reference
Industries` cell lists the distinct labels in first-seen order, each as
`<label> <count>`, joined by single spaces. -/
theorem c5_recurring_label_max (norm : List Char) (lab : String)
    (h : lab ∈ (industryFound norm).map Prod.snd) :
    dictGet (extractExtras norm).riCounts (makeSafeRiCol lab)
        = some (maxCount (industryFound norm) lab)
    ∧ (extractExtras norm).referenceIndustries
        = ⟨renderIndustries (dedupFold (industryFound norm))⟩
    ∧ (dedupFold (industryFound norm)).map Prod.fst
        = firstSeen ((industryFound norm).map Prod.snd) := by
  have horder : (dedupFold (industryFound norm)).map Prod.fst
      = firstSeen ((industryFound norm).map Prod.snd) := by
    unfold dedupFold firstSeen
    rw [map_fst_foldl_dedupAdd]
    simp
  cases href : refsTotalSearch norm with
  | none =>
    rw [industryFound_empty_of_no_anchor href] at h
    simp at h
  | some p =>
    refine ⟨?_, ?_, horder⟩
    · rw [extractExtras_some norm p href]
      show dictGet (writeRiCounts initRiZeroDict (dedupFold (industryFound norm)))
        (makeSafeRiCol lab) = some (maxCount (industryFound norm) lab)
      have hlabsub : ∀ x ∈ (industryFound norm).map Prod.snd, x ∈ ALLOWED_INDUSTRIES := by
        intro x hx
        obtain ⟨pr, hpr, rfl⟩ := List.mem_map.mp hx
        exact sortedIndustries_sub _ (industryFound_label_mem hpr)
      have hkeysub : ∀ l ∈ (dedupFold (industryFound norm)).map Prod.fst,
          l ∈ ALLOWED_INDUSTRIES := by
        intro l hl
        obtain ⟨q, hq, rfl⟩ := List.mem_map.mp hl
        exact hlabsub _ (dedupFold_label_mem hq)
      have hnd : ((dedupFold (industryFound norm)).map Prod.fst).Nodup := by
        rw [horder]
        exact (firstSeenGo_nodup _ []).1
      have hmemkeys : lab ∈ (dedupFold (industryFound norm)).map Prod.fst := by
        rw [horder]
        exact mem_firstSeenGo_of_mem _ [] lab h (by simp)
      rw [dictGet_writeRiCounts_hit (dedupFold (industryFound norm)) initRiZeroDict lab
        hnd hkeysub hmemkeys initRi_map_fst]
      unfold dedupFold
      rw [dictGet_foldl_dedupAdd (industryFound norm) [] lab, if_pos h]
      simp [dictGet]
    · rw [extractExtras_some norm p href]

def c5text : List Char :=
  "References - 9 3 Agriculture 5 Agriculture 2 Education".toList

theorem c5_witness :
    dictGet (extractExtras c5text).riCounts (makeSafeRiCol "Agriculture")
        = some (maxCount (industryFound c5text) "Agriculture")
    ∧ (extractExtras c5text).referenceIndustries
        = ⟨renderIndustries (dedupFold (industryFound c5text))⟩
    ∧ (dedupFold (industryFound c5text)).map Prod.fst
        = firstSeen ((industryFound c5text).map Prod.snd) :=
  c5_recurring_label_max c5text "Agriculture" (by decide)

theorem c7_witness :
    parsePartnerText "hello world".toList = none ↔
      tierSearch (normalize "hello world".toList) = none
      ∨ (∃ m, tierSearch (normalize "hello world".toList) = some m
           ∧ (stripWs ((normalize "hello world".toList).take m.1) = []
              ∨ (stripWs ((normalize "hello world".toList).take m.1)).map Char.toLower
                  = "find best match".toList))
      ∨ (rowLocation (normalize "hello world".toList) = "N/A".toList
           ∧ rowRefs (normalize "hello world".toList) = ['0']
           ∧ rowExperts (normalize "hello world".toList) = ['0']) :=
  c7_null_characterisation "hello world".toList

end Scraper
